import Mathlib

/-!
Verification of the EdgeQuota external-events-template bounded event store.

The embedding below translates the core of `http/events.go` and
`grpc/events.go` (the two files hold near-identical copies of one store
implementation).  Go slices become Lean lists, the `EventService` struct
becomes an explicit state record, and each HTTP/gRPC handler becomes a
function from state (plus decoded input) to state and response.

The three lifetime counters are `atomic.Int64` in the source; they are
modelled as unbounded `Int` because every increment is a batch length
(bounded by the decoded slice's length) and no claim concerns int64
wrap-around, which no physically realisable run can reach.
-/

/-- `UsageEvent` from events.go: the JSON/protobuf usage-decision record.
The HTTP variant in src/http/events.go carries `TenantKey` either as a plain
string or as a nullable pointer depending on the copy; both treat a missing
tenant key as the empty string, so a plain `String` field is faithful. -/
structure UsageEvent where
  key : String
  tenantKey : String
  method : String
  path : String
  allowed : Bool
  remaining : Int
  limit : Int
  timestamp : String
  statusCode : Int
  requestID : String
deriving Repr, DecidableEq

/-- `EventStats` from events.go: aggregate counters returned by the stats
endpoint (`total_received`, `total_allowed`, `total_denied`,
`stored_events`). -/
structure EventStats where
  totalReceived : Int
  totalAllowed : Int
  totalDenied : Int
  storedEvents : Nat
deriving Repr, DecidableEq

/-- The mutable fields of `EventService`: the retained window slice
`events` and the three lifetime counters. -/
structure EventServiceState where
  events : List UsageEvent
  totalReceived : Int
  totalAllowed : Int
  totalDenied : Int
deriving Repr, DecidableEq

/-- `maxStoredEvents` constant from events.go. -/
def maxStoredEvents : Nat := 10000

/-- `NewEventService`: empty window, zeroed counters (the Go slice's initial
capacity of 1024 has no observable semantics). -/
def NewEventService : EventServiceState :=
  { events := [], totalReceived := 0, totalAllowed := 0, totalDenied := 0 }

/-- `EventService.store` from events.go: append the batch to the window,
then, if the window exceeds `maxStoredEvents`, drop the excess from the
front.  `List.drop` of the excess is exactly the Go re-slice
`s.events[excess:]`. -/
def EventServiceState.store (s : EventServiceState) (batch : List UsageEvent) :
    EventServiceState :=
  let ev := s.events ++ batch
  if ev.length > maxStoredEvents then
    { s with events := ev.drop (ev.length - maxStoredEvents) }
  else
    { s with events := ev }

/-- The counting loop in `HandlePublishEvents` / `PublishEvents`: one pass
over the batch incrementing `allowed` or `denied` per record. -/
def classifyCounts (batch : List UsageEvent) : Int × Int :=
  batch.foldl
    (fun ad ev => if ev.allowed then (ad.1 + 1, ad.2) else (ad.1, ad.2 + 1))
    (0, 0)

/-- Outcome of `json.NewDecoder(r.Body).Decode(&req)` on the publish body.
`err` is a decode error (malformed JSON / wrong shape); `ok evs` is a
successful decode of a `PublishEventsRequest`, where `evs = none` embeds
Go's encoding/json behaviour of leaving `Events` as the nil slice when the
`events` field is absent or JSON null, and `evs = some l` a present array. -/
inductive DecodeResult where
  | err
  | ok (evs : Option (List UsageEvent))
deriving Repr, DecidableEq

/-- Response written by `HandlePublishEvents`. -/
inductive PublishResponse where
  | invalidBody
  | accepted (n : Int)
deriving Repr, DecidableEq

/-- HTTP status code of each publish response (400 for the decode-error
branch, 200 for the success branch). -/
def PublishResponse.status : PublishResponse → Nat
  | .invalidBody => 400
  | .accepted _ => 200

/-- `HandlePublishEvents` from events.go, after the transport has produced
the decode outcome: on decode error, write 400 and return without touching
the store; otherwise count allowed/denied, call `store`, add the three
counter deltas, and answer `accepted = len(events)`.  A nil `Events` slice
(absent/null field) has length 0 and ranges over nothing. -/
def handlePublishEvents (s : EventServiceState) (body : DecodeResult) :
    EventServiceState × PublishResponse :=
  match body with
  | .err => (s, .invalidBody)
  | .ok evs =>
    let events := evs.getD []
    let count : Int := events.length
    let ad := classifyCounts events
    let s1 := s.store events
    let s2 := { s1 with
                  totalReceived := s1.totalReceived + count
                  totalAllowed := s1.totalAllowed + ad.1
                  totalDenied := s1.totalDenied + ad.2 }
    (s2, .accepted count)

/-- One digit of `strconv.Atoi`. -/
def digitVal (c : Char) : Option Nat :=
  if '0' ≤ c ∧ c ≤ '9' then some (c.toNat - '0'.toNat) else none

/-- Base-10 digit run of `strconv.Atoi`: empty or any non-digit character
is a syntax error. -/
def parseDigits (acc : Nat) : List Char → Option Nat
  | [] => some acc
  | c :: rest =>
    match digitVal c with
    | some d => parseDigits (acc * 10 + d) rest
    | none => none

/-- `strconv.Atoi` (64-bit int): optional sign, then one or more base-10
digits; anything else is a syntax error, and a value outside the int64
range is a range error.  Either error makes Go return `err != nil`, which
the handler treats identically, so both map to `none`. -/
def goAtoi (str : String) : Option Int :=
  let cs := str.toList
  let sign : Int := match cs with
    | '-' :: _ => -1
    | _ => 1
  let digits := match cs with
    | '+' :: rest => rest
    | '-' :: rest => rest
    | _ => cs
  if digits = [] then none
  else
    match parseDigits 0 digits with
    | none => none
    | some n =>
      let v := sign * (n : Int)
      if -(2 ^ 63) ≤ v ∧ v ≤ 2 ^ 63 - 1 then some v else none

/-- The limit normalisation in `HandleListEvents`: start from the default
100; only an absent parameter keeps it, and a present one replaces it only
when `strconv.Atoi` succeeds with a positive value. -/
def normalizeLimit (limitStr : String) : Int :=
  if limitStr = "" then 100
  else
    match goAtoi limitStr with
    | some n => if n > 0 then n else 100
    | none => 100

/-- The selection loop of `HandleListEvents`, already running over the
window in reverse (the Go loop walks indices from `len-1` down to `0`):
stop once `limit` records are collected, skip records whose tenant key
differs from a non-empty filter, collect everything otherwise. -/
def selectEvents (tenantFilter : String) : Nat → List UsageEvent → List UsageEvent
  | _, [] => []
  | 0, _ :: _ => []
  | k + 1, ev :: rest =>
    if tenantFilter ≠ "" ∧ ev.tenantKey ≠ tenantFilter then
      selectEvents tenantFilter (k + 1) rest
    else
      ev :: selectEvents tenantFilter k rest

/-- `HandleListEvents` body after limit normalisation: newest-first
selection over the window with the given tenant filter and limit. -/
def listEvents (s : EventServiceState) (tenantFilter : String) (limit : Nat) :
    List UsageEvent :=
  selectEvents tenantFilter limit s.events.reverse

/-- `HandleListEvents` from events.go: read `tenant_key` and `limit` from
the query, normalise the limit, and select under the read lock. -/
def handleListEvents (s : EventServiceState) (tenantFilter limitStr : String) :
    List UsageEvent :=
  listEvents s tenantFilter (normalizeLimit limitStr).toNat

/-- `HandleStats` from events.go: the window length plus the three counter
loads (the argument is the state at the read instant). -/
def handleStats (s : EventServiceState) : EventStats :=
  { totalReceived := s.totalReceived
    totalAllowed := s.totalAllowed
    totalDenied := s.totalDenied
    storedEvents := s.events.length }

/-- `HandleClearEvents` from events.go: truncate the window to length 0 and
store 0 into each counter (the handler then writes 204 No Content). -/
def handleClearEvents (_s : EventServiceState) : EventServiceState :=
  { events := [], totalReceived := 0, totalAllowed := 0, totalDenied := 0 }

/-- One externally invokable store operation, used to quantify over
operation sequences. -/
inductive Op where
  | ingest (batch : List UsageEvent)
  | list (tenantFilter limitStr : String)
  | stats
  | clear
deriving Repr, DecidableEq

/-- State transition of one operation: list and stats read under the shared
lock and leave the state unchanged; ingest runs the success branch of
`HandlePublishEvents`; clear runs `HandleClearEvents`. -/
def applyOp (s : EventServiceState) (op : Op) : EventServiceState :=
  match op with
  | .ingest batch => (handlePublishEvents s (.ok (some batch))).1
  | .list _ _ => s
  | .stats => s
  | .clear => handleClearEvents s

/-- Run a sequence of operations from the freshly created service. -/
def runOps (ops : List Op) : EventServiceState :=
  ops.foldl applyOp NewEventService

/-- True when the operation is a clear. -/
def Op.isClear : Op → Bool
  | .clear => true
  | _ => false

/-- Number of records an operation ingests. -/
def Op.batchSize : Op → Nat
  | .ingest b => b.length
  | _ => 0

/-- Total number of records ingested by a sequence of operations. -/
def totalIngested (ops : List Op) : Nat :=
  (ops.map Op.batchSize).sum

/-- All records ingested by a sequence of operations, in arrival order. -/
def ingestedRecords (ops : List Op) : List UsageEvent :=
  (ops.map fun op => match op with | .ingest b => b | _ => []).flatten

/-- Allowed records of a batch. -/
def allowedCount (batch : List UsageEvent) : Nat :=
  (batch.filter (fun ev => ev.allowed)).length

/-- Denied records of a batch. -/
def deniedCount (batch : List UsageEvent) : Nat :=
  (batch.filter (fun ev => !ev.allowed)).length

/-- Allowed records ingested by a sequence of operations. -/
def totalAllowedIn (ops : List Op) : Nat :=
  (ops.map fun op => match op with | .ingest b => allowedCount b | _ => 0).sum

/-- Denied records ingested by a sequence of operations. -/
def totalDeniedIn (ops : List Op) : Nat :=
  (ops.map fun op => match op with | .ingest b => deniedCount b | _ => 0).sum

/-- Boolean form of the tenant-filter test in `HandleListEvents`: a record
is kept when the filter is empty or equals its tenant key (the Go loop
skips the record in the complementary case). -/
def matchesFilter (f : String) (ev : UsageEvent) : Bool :=
  f == "" || ev.tenantKey == f

/-!
Fine-grained concurrency model.  `HandlePublishEvents`, `HandleClearEvents`
and `HandleStats` do not perform their whole effect inside one critical
section: `store` holds the write lock only for the window append and trim,
each `atomic.Int64` `Add`/`Store`/`Load` is an individually atomic step
executed outside that lock, and `HandleStats` reads the window length under
the read lock but loads the three counters afterwards.  Each `Action` below
is one such atomic step; an arbitrary interleaving of the handlers is an
arbitrary list of actions, and a reader may observe the state after any
prefix.
-/

/-- One atomic step of a handler. -/
inductive AtomicStep where
  | storeBatch (batch : List UsageEvent)
  | addReceived (n : Int)
  | addAllowed (n : Int)
  | addDenied (n : Int)
  | clearWindow
  | setReceived (n : Int)
  | setAllowed (n : Int)
  | setDenied (n : Int)
deriving Repr, DecidableEq

/-- Effect of one atomic step on the shared state. -/
def applyAction (s : EventServiceState) : AtomicStep → EventServiceState
  | .storeBatch b => s.store b
  | .addReceived n => { s with totalReceived := s.totalReceived + n }
  | .addAllowed n => { s with totalAllowed := s.totalAllowed + n }
  | .addDenied n => { s with totalDenied := s.totalDenied + n }
  | .clearWindow => { s with events := [] }
  | .setReceived n => { s with totalReceived := n }
  | .setAllowed n => { s with totalAllowed := n }
  | .setDenied n => { s with totalDenied := n }

/-- The atomic steps of `HandlePublishEvents` after decoding, in program
order: the locked `store` call, then the three counter `Add`s. -/
def ingestProgram (batch : List UsageEvent) : List AtomicStep :=
  [.storeBatch batch, .addReceived batch.length,
   .addAllowed (classifyCounts batch).1, .addDenied (classifyCounts batch).2]

/-- The atomic steps of `HandleClearEvents`, in program order: the locked
window truncation, then the three counter `Store`s. -/
def clearProgram : List AtomicStep :=
  [.clearWindow, .setReceived 0, .setAllowed 0, .setDenied 0]

/-- Run a sequence of atomic steps (one interleaving of the handlers). -/
def runActions (s : EventServiceState) (tr : List AtomicStep) : EventServiceState :=
  tr.foldl applyAction s

/-- The batches whose locked `store` step has completed since the most
recent clear truncation (all of them when no clear step has run), in
execution order; `acc` accumulates the batches seen so far. -/
def batchesAcc (acc : List (List UsageEvent)) : List AtomicStep → List (List UsageEvent)
  | [] => acc
  | .storeBatch b :: rest => batchesAcc (acc ++ [b]) rest
  | .clearWindow :: rest => batchesAcc [] rest
  | _ :: rest => batchesAcc acc rest

/-- The batches completely stored since the most recent clear truncation
of a schedule, in execution order. -/
def batchesSinceClear (tr : List AtomicStep) : List (List UsageEvent) :=
  batchesAcc [] tr

/-- A concrete allowed event (field values taken from the repository's own
tests). -/
def sampleEvent : UsageEvent :=
  { key := "10.0.0.1", tenantKey := "tenant-1", method := "GET",
    path := "/api/v1/data", allowed := true, remaining := 99, limit := 100,
    timestamp := "2026-02-16T21:00:00Z", statusCode := 200,
    requestID := "req-a" }

/-- A concrete denied event. -/
def sampleDeniedEvent : UsageEvent :=
  { key := "10.0.0.1", tenantKey := "tenant-2", method := "POST",
    path := "/api/v1/data", allowed := false, remaining := 0, limit := 100,
    timestamp := "2026-02-16T21:00:01Z", statusCode := 429,
    requestID := "req-b" }

/-- A batch one record larger than the retention capacity. -/
def bigBatch : List UsageEvent :=
  List.replicate (maxStoredEvents + 1) sampleEvent

/-- A concrete service state with two retained events. -/
def sampleState : EventServiceState :=
  { events := [sampleDeniedEvent, sampleEvent], totalReceived := 2,
    totalAllowed := 1, totalDenied := 1 }

/-- A concrete interleaved schedule: a clear's window truncation lands
between the store steps and counter steps of two ingests. -/
def tornTrace : List AtomicStep :=
  [.storeBatch [sampleEvent], .addReceived 1, .clearWindow,
   .storeBatch [sampleDeniedEvent], .setReceived 0, .addAllowed 1]

/-- A concrete two-record ingest sequence. -/
def pairOps : List Op :=
  [Op.ingest [sampleEvent, sampleDeniedEvent]]

example :
    (runOps [Op.ingest [⟨"k", "t", "GET", "/", true, 1, 100, "ts", 200, "r"⟩]]).totalReceived = 1 := by
  decide

example :
    handleStats (runOps [Op.ingest [⟨"k", "t", "GET", "/", true, 1, 100, "ts", 200, "r"⟩,
                                    ⟨"k", "t", "GET", "/", false, 0, 100, "ts", 429, "r"⟩]]) =
      ⟨2, 1, 1, 2⟩ := by
  decide

example : goAtoi "-5" = some (-5) := by decide
example : goAtoi "abc" = none := by decide
example : goAtoi "" = none := by decide
example : goAtoi "+12" = some 12 := by decide
example : normalizeLimit "0" = 100 := by decide
example : normalizeLimit "7" = 7 := by decide

theorem store_events_eq (s : EventServiceState) (batch : List UsageEvent) :
    (s.store batch).events =
      (s.events ++ batch).drop ((s.events ++ batch).length - maxStoredEvents) := by
  by_cases h : maxStoredEvents < s.events.length + batch.length
  · simp [EventServiceState.store, h]
  · simp [EventServiceState.store, h]
    have h0 : s.events.length + batch.length - maxStoredEvents = 0 := by omega
    rw [h0, List.drop_zero]

theorem store_totalReceived (s : EventServiceState) (batch : List UsageEvent) :
    (s.store batch).totalReceived = s.totalReceived := by
  by_cases h : maxStoredEvents < s.events.length + batch.length <;>
    simp [EventServiceState.store, h]

theorem store_totalAllowed (s : EventServiceState) (batch : List UsageEvent) :
    (s.store batch).totalAllowed = s.totalAllowed := by
  by_cases h : maxStoredEvents < s.events.length + batch.length <;>
    simp [EventServiceState.store, h]

theorem store_totalDenied (s : EventServiceState) (batch : List UsageEvent) :
    (s.store batch).totalDenied = s.totalDenied := by
  by_cases h : maxStoredEvents < s.events.length + batch.length <;>
    simp [EventServiceState.store, h]

theorem store_length_le (s : EventServiceState) (batch : List UsageEvent) :
    (s.store batch).events.length ≤ maxStoredEvents := by
  rw [store_events_eq, List.length_drop]
  omega

theorem store_events_drop (s : EventServiceState) (all batch : List UsageEvent)
    (h : s.events = all.drop (all.length - maxStoredEvents)) :
    (s.store batch).events =
      (all ++ batch).drop ((all ++ batch).length - maxStoredEvents) := by
  rw [store_events_eq, h]
  rw [← List.drop_append_of_le_length
        (show all.length - maxStoredEvents ≤ all.length by omega)]
  rw [List.drop_drop]
  have hidx : all.length - maxStoredEvents +
        (((all ++ batch).drop (all.length - maxStoredEvents)).length - maxStoredEvents) =
      (all ++ batch).length - maxStoredEvents := by
    simp only [List.length_drop, List.length_append]
    omega
  rw [hidx]

theorem classify_foldl (b : List UsageEvent) : ∀ (x y : Int),
    b.foldl (fun ad ev => if ev.allowed then (ad.1 + 1, ad.2) else (ad.1, ad.2 + 1)) (x, y) =
      (x + allowedCount b, y + deniedCount b) := by
  induction b with
  | nil => intro x y; simp [allowedCount, deniedCount]
  | cons ev rest ih =>
    intro x y
    simp only [List.foldl_cons]
    by_cases h : ev.allowed
    · rw [if_pos h, ih]
      simp [allowedCount, deniedCount, List.filter_cons, h]
      ring
    · rw [if_neg h, ih]
      simp [allowedCount, deniedCount, List.filter_cons, h]
      ring

theorem classifyCounts_eq (b : List UsageEvent) :
    classifyCounts b = ((allowedCount b : Int), (deniedCount b : Int)) := by
  unfold classifyCounts
  rw [classify_foldl]
  simp

theorem allowedCount_add_deniedCount (b : List UsageEvent) :
    allowedCount b + deniedCount b = b.length := by
  induction b with
  | nil => rfl
  | cons ev rest ih =>
    by_cases h : ev.allowed <;>
      simp [allowedCount, deniedCount, List.filter_cons, h] at * <;> omega

theorem applyOp_ingest_events (s : EventServiceState) (b : List UsageEvent) :
    (applyOp s (Op.ingest b)).events = (s.store b).events := rfl

theorem applyOp_ingest_totalReceived (s : EventServiceState) (b : List UsageEvent) :
    (applyOp s (Op.ingest b)).totalReceived = s.totalReceived + b.length := by
  simp [applyOp, handlePublishEvents, store_totalReceived]

theorem applyOp_ingest_totalAllowed (s : EventServiceState) (b : List UsageEvent) :
    (applyOp s (Op.ingest b)).totalAllowed = s.totalAllowed + allowedCount b := by
  simp [applyOp, handlePublishEvents, classifyCounts_eq, store_totalAllowed]

theorem applyOp_ingest_totalDenied (s : EventServiceState) (b : List UsageEvent) :
    (applyOp s (Op.ingest b)).totalDenied = s.totalDenied + deniedCount b := by
  simp [applyOp, handlePublishEvents, classifyCounts_eq, store_totalDenied]

theorem foldl_counter_identity (ops : List Op) : ∀ (s : EventServiceState),
    s.totalReceived = s.totalAllowed + s.totalDenied →
    (ops.foldl applyOp s).totalReceived =
      (ops.foldl applyOp s).totalAllowed + (ops.foldl applyOp s).totalDenied := by
  induction ops with
  | nil => intro s h; exact h
  | cons op rest ih =>
    intro s h
    rw [List.foldl_cons]
    apply ih
    cases op with
    | ingest b =>
      rw [applyOp_ingest_totalReceived, applyOp_ingest_totalAllowed,
        applyOp_ingest_totalDenied]
      have hc := allowedCount_add_deniedCount b
      have hc2 : ((allowedCount b : Int) + (deniedCount b : Int)) = (b.length : Int) := by
        exact_mod_cast hc
      omega
    | list f l => exact h
    | stats => exact h
    | clear => rfl

theorem foldl_counters (ops : List Op) : ∀ (s : EventServiceState),
    (ops.all fun op => !op.isClear) = true →
    (ops.foldl applyOp s).totalReceived = s.totalReceived + totalIngested ops ∧
    (ops.foldl applyOp s).totalAllowed = s.totalAllowed + totalAllowedIn ops ∧
    (ops.foldl applyOp s).totalDenied = s.totalDenied + totalDeniedIn ops := by
  induction ops with
  | nil =>
    intro s _
    simp [totalIngested, totalAllowedIn, totalDeniedIn]
  | cons op rest ih =>
    intro s h
    rw [List.all_cons, Bool.and_eq_true] at h
    rw [List.foldl_cons]
    have hrest := ih (applyOp s op) h.2
    cases op with
    | ingest b =>
      refine ⟨?_, ?_, ?_⟩
      · rw [hrest.1, applyOp_ingest_totalReceived]
        simp [totalIngested, Op.batchSize]
        ring
      · rw [hrest.2.1, applyOp_ingest_totalAllowed]
        simp [totalAllowedIn]
        ring
      · rw [hrest.2.2, applyOp_ingest_totalDenied]
        simp [totalDeniedIn]
        ring
    | list f l =>
      simpa [totalIngested, totalAllowedIn, totalDeniedIn, Op.batchSize] using hrest
    | stats =>
      simpa [totalIngested, totalAllowedIn, totalDeniedIn, Op.batchSize] using hrest
    | clear => simp [Op.isClear] at h

theorem foldl_length_le (ops : List Op) : ∀ (s : EventServiceState),
    s.events.length ≤ maxStoredEvents →
    (ops.foldl applyOp s).events.length ≤ maxStoredEvents := by
  induction ops with
  | nil => intro s h; exact h
  | cons op rest ih =>
    intro s h
    rw [List.foldl_cons]
    apply ih
    cases op with
    | ingest b => rw [applyOp_ingest_events]; exact store_length_le s b
    | list f l => exact h
    | stats => exact h
    | clear => simp [applyOp, handleClearEvents, maxStoredEvents]

theorem foldl_events_drop (ops : List Op) : ∀ (s : EventServiceState) (all : List UsageEvent),
    (ops.all fun op => !op.isClear) = true →
    s.events = all.drop (all.length - maxStoredEvents) →
    (ops.foldl applyOp s).events =
      (all ++ ingestedRecords ops).drop
        ((all ++ ingestedRecords ops).length - maxStoredEvents) := by
  induction ops with
  | nil =>
    intro s all _ h
    simpa [ingestedRecords] using h
  | cons op rest ih =>
    intro s all hnc h
    rw [List.all_cons, Bool.and_eq_true] at hnc
    rw [List.foldl_cons]
    cases op with
    | ingest b =>
      have hstep : (applyOp s (Op.ingest b)).events =
          (all ++ b).drop ((all ++ b).length - maxStoredEvents) := by
        rw [applyOp_ingest_events]
        exact store_events_drop s all b h
      have := ih (applyOp s (Op.ingest b)) (all ++ b) hnc.2 hstep
      rw [this]
      simp [ingestedRecords, List.append_assoc]
    | list f l =>
      have := ih s all hnc.2 h
      rw [show applyOp s (Op.list f l) = s from rfl, this]
      simp [ingestedRecords]
    | stats =>
      have := ih s all hnc.2 h
      rw [show applyOp s Op.stats = s from rfl, this]
      simp [ingestedRecords]
    | clear => simp [Op.isClear] at hnc

theorem length_ingestedRecords (ops : List Op) :
    (ingestedRecords ops).length = totalIngested ops := by
  induction ops with
  | nil => rfl
  | cons op rest ih =>
    cases op <;>
      simp [ingestedRecords, totalIngested, Op.batchSize, List.length_append] at * <;>
      omega

theorem all_not_isClear_map_ingest (bs : List (List UsageEvent)) :
    ((bs.map Op.ingest).all fun op => !op.isClear) = true := by
  induction bs with
  | nil => rfl
  | cons b rest ih => simp [Op.isClear, ih]

theorem ingestedRecords_map_ingest (bs : List (List UsageEvent)) :
    ingestedRecords (bs.map Op.ingest) = bs.flatten := by
  induction bs with
  | nil => rfl
  | cons b rest ih => simp [ingestedRecords] at *; exact ih

theorem selectEvents_nil (f : String) (k : Nat) : selectEvents f k [] = [] := by
  cases k <;> rfl

theorem selectEvents_eq_filter_take (f : String) :
    ∀ (l : List UsageEvent) (k : Nat),
      selectEvents f k l = (l.filter (matchesFilter f)).take k := by
  intro l
  induction l with
  | nil => intro k; simp [selectEvents_nil]
  | cons ev rest ih =>
    intro k
    cases k with
    | zero => cases h : List.filter (matchesFilter f) (ev :: rest) <;> rfl
    | succ k =>
      by_cases hf : f = ""
      · have hm : matchesFilter f ev = true := by simp [matchesFilter, hf]
        rw [show selectEvents f (k + 1) (ev :: rest) =
            ev :: selectEvents f k rest by simp [selectEvents, hf]]
        rw [List.filter_cons_of_pos hm, List.take_succ_cons, ih]
      · by_cases ht : ev.tenantKey = f
        · have hm : matchesFilter f ev = true := by simp [matchesFilter, ht]
          rw [show selectEvents f (k + 1) (ev :: rest) =
              ev :: selectEvents f k rest by simp [selectEvents, ht]]
          rw [List.filter_cons_of_pos hm, List.take_succ_cons, ih]
        · have hm : matchesFilter f ev = false := by
            simp [matchesFilter, hf, ht]
          rw [show selectEvents f (k + 1) (ev :: rest) =
              selectEvents f (k + 1) rest by simp [selectEvents, hf, ht]]
          rw [List.filter_cons_of_neg (by simp [hm]), ih]

theorem runActions_events_since_clear (tr : List AtomicStep) :
    ∀ (s : EventServiceState) (acc : List (List UsageEvent)),
      s.events = acc.flatten.drop (acc.flatten.length - maxStoredEvents) →
      (runActions s tr).events =
        (batchesAcc acc tr).flatten.drop
          ((batchesAcc acc tr).flatten.length - maxStoredEvents) := by
  induction tr with
  | nil =>
    intro s acc h
    exact h
  | cons a rest ih =>
    intro s acc h
    cases a with
    | storeBatch b =>
      show (runActions (applyAction s (.storeBatch b)) rest).events =
        (batchesAcc (acc ++ [b]) rest).flatten.drop
          ((batchesAcc (acc ++ [b]) rest).flatten.length - maxStoredEvents)
      apply ih
      have hflat : (acc ++ [b]).flatten = acc.flatten ++ b := by simp
      rw [hflat]
      exact store_events_drop s acc.flatten b h
    | clearWindow =>
      show (runActions (applyAction s .clearWindow) rest).events =
        (batchesAcc ([] : List (List UsageEvent)) rest).flatten.drop
          ((batchesAcc ([] : List (List UsageEvent)) rest).flatten.length -
            maxStoredEvents)
      apply ih
      rfl
    | addReceived n => exact ih (applyAction s (.addReceived n)) acc h
    | addAllowed n => exact ih (applyAction s (.addAllowed n)) acc h
    | addDenied n => exact ih (applyAction s (.addDenied n)) acc h
    | setReceived n => exact ih (applyAction s (.setReceived n)) acc h
    | setAllowed n => exact ih (applyAction s (.setAllowed n)) acc h
    | setDenied n => exact ih (applyAction s (.setDenied n)) acc h

theorem totalIngested_eq (ops : List Op) :
    totalIngested ops = totalAllowedIn ops + totalDeniedIn ops := by
  induction ops with
  | nil => rfl
  | cons op rest ih =>
    cases op <;>
      simp [totalIngested, totalAllowedIn, totalDeniedIn, Op.batchSize] at * <;>
      try omega
    have := allowedCount_add_deniedCount
    rename_i b
    have hb := allowedCount_add_deniedCount b
    omega

theorem filter_matchesFilter_empty (l : List UsageEvent) :
    l.filter (matchesFilter "") = l := by
  apply List.filter_eq_self.mpr
  intro a _
  simp [matchesFilter]

/-- C1: capacity bound.  After any operation sequence from the empty store
the window length is at most `maxStoredEvents`; and with no clear in the
sequence, once strictly more than `maxStoredEvents` records have been
ingested in total, the stats endpoint reports exactly `maxStoredEvents`
stored events. -/
theorem capacity_bound (ops : List Op) :
    (runOps ops).events.length ≤ maxStoredEvents ∧
    ((ops.all fun op => !op.isClear) = true →
      maxStoredEvents < totalIngested ops →
      (handleStats (runOps ops)).storedEvents = maxStoredEvents) := by
  constructor
  · exact foldl_length_le ops NewEventService (by simp [NewEventService])
  · intro hnc hgt
    have hd := foldl_events_drop ops NewEventService [] hnc rfl
    simp only [List.nil_append] at hd
    show (runOps ops).events.length = maxStoredEvents
    rw [show runOps ops = ops.foldl applyOp NewEventService from rfl, hd,
      List.length_drop, length_ingestedRecords]
    omega

/-- Witness for C1 at a single ingest of 10001 records. -/
theorem capacity_bound_witness :
    (([Op.ingest bigBatch].all fun op => !op.isClear) = true ∧
      maxStoredEvents < totalIngested [Op.ingest bigBatch]) ∧
    ((runOps [Op.ingest bigBatch]).events.length ≤ maxStoredEvents ∧
      (handleStats (runOps [Op.ingest bigBatch])).storedEvents = maxStoredEvents) := by
  have h1 : ([Op.ingest bigBatch].all fun op => !op.isClear) = true := by decide
  have h2 : maxStoredEvents < totalIngested [Op.ingest bigBatch] := by
    simp [totalIngested, Op.batchSize, bigBatch]
  exact ⟨⟨h1, h2⟩, (capacity_bound [Op.ingest bigBatch]).1,
    (capacity_bound [Op.ingest bigBatch]).2 h1 h2⟩

/-- C2: accounting identity.  The three counters satisfy
received = allowed + denied after every operation sequence from the empty
store; and after a clear followed by clear-free operations ingesting `a`
allowed and `d` denied records, stats reports exactly `a + d`, `a` and
`d`. -/
theorem accounting_identity (s : EventServiceState) (ops : List Op) :
    (runOps ops).totalReceived =
      (runOps ops).totalAllowed + (runOps ops).totalDenied ∧
    ((ops.all fun op => !op.isClear) = true →
      (handleStats (ops.foldl applyOp (handleClearEvents s))).totalReceived =
          totalAllowedIn ops + totalDeniedIn ops ∧
        (handleStats (ops.foldl applyOp (handleClearEvents s))).totalAllowed =
          totalAllowedIn ops ∧
        (handleStats (ops.foldl applyOp (handleClearEvents s))).totalDenied =
          totalDeniedIn ops) := by
  constructor
  · exact foldl_counter_identity ops NewEventService rfl
  · intro hnc
    have h := foldl_counters ops (handleClearEvents s) hnc
    refine ⟨?_, ?_, ?_⟩
    · show (ops.foldl applyOp (handleClearEvents s)).totalReceived =
        ((totalAllowedIn ops + totalDeniedIn ops : Nat) : Int)
      rw [h.1, show (handleClearEvents s).totalReceived = 0 from rfl, zero_add,
        totalIngested_eq]
    · show (ops.foldl applyOp (handleClearEvents s)).totalAllowed =
        ((totalAllowedIn ops : Nat) : Int)
      rw [h.2.1, show (handleClearEvents s).totalAllowed = 0 from rfl, zero_add]
    · show (ops.foldl applyOp (handleClearEvents s)).totalDenied =
        ((totalDeniedIn ops : Nat) : Int)
      rw [h.2.2, show (handleClearEvents s).totalDenied = 0 from rfl, zero_add]

/-- Witness for C2 at one mixed batch after a clear of a concrete state. -/
theorem accounting_identity_witness :
    ((pairOps.all fun op => !op.isClear) = true) ∧
    (runOps pairOps).totalReceived =
      (runOps pairOps).totalAllowed + (runOps pairOps).totalDenied ∧
    (handleStats (pairOps.foldl applyOp (handleClearEvents sampleState))).totalReceived =
      totalAllowedIn pairOps + totalDeniedIn pairOps := by
  have h1 : (pairOps.all fun op => !op.isClear) = true := by decide
  exact ⟨h1, (accounting_identity sampleState pairOps).1,
    ((accounting_identity sampleState pairOps).2 h1).1⟩

/-- C3: FIFO eviction.  Ingesting batches whose concatenation R1..Rn has
n > maxStoredEvents (no clear in between) leaves exactly the last
maxStoredEvents records in original relative order, and a list call with an
empty filter and limit at least maxStoredEvents returns exactly those
records (newest first). -/
theorem fifo_eviction (bs : List (List UsageEvent))
    (h : maxStoredEvents < bs.flatten.length) :
    (runOps (bs.map Op.ingest)).events =
      bs.flatten.drop (bs.flatten.length - maxStoredEvents) ∧
    (∀ k, maxStoredEvents ≤ k →
      listEvents (runOps (bs.map Op.ingest)) "" k =
        (bs.flatten.drop (bs.flatten.length - maxStoredEvents)).reverse) := by
  have hwin : (runOps (bs.map Op.ingest)).events =
      bs.flatten.drop (bs.flatten.length - maxStoredEvents) := by
    have hd := foldl_events_drop (bs.map Op.ingest) NewEventService []
      (all_not_isClear_map_ingest bs) rfl
    simpa [ingestedRecords_map_ingest] using hd
  refine ⟨hwin, ?_⟩
  intro k hk
  rw [show listEvents (runOps (bs.map Op.ingest)) "" k =
      selectEvents "" k (runOps (bs.map Op.ingest)).events.reverse from rfl]
  rw [selectEvents_eq_filter_take, List.filter_reverse, filter_matchesFilter_empty,
    hwin]
  apply List.take_of_length_le
  rw [List.length_reverse, List.length_drop]
  omega

/-- Witness for C3 at one batch of 10001 records. -/
theorem fifo_eviction_witness :
    maxStoredEvents < ([bigBatch].flatten).length ∧
    (runOps ([bigBatch].map Op.ingest)).events =
      [bigBatch].flatten.drop (([bigBatch].flatten).length - maxStoredEvents) := by
  have hbig : maxStoredEvents < ([bigBatch].flatten).length := by
    simp [bigBatch]
  exact ⟨hbig, (fifo_eviction [bigBatch] hbig).1⟩

/-- C4 counterexample: the claim that each ingest (window append plus all
three counter increments) is indivisible for readers, and that stats is a
single consistent snapshot, fails on the code.  `store` releases the write
lock before the three `atomic.Int64` adds run, so the schedule that runs a
full stats read between the locked store step and the counter steps is
legal; it observes one stored event with all counters still zero, a state
that matches neither the stats before the ingest nor the stats after it —
the only two atomic snapshots of this one-ingest history. -/
theorem stats_snapshot_torn_counterexample :
    runActions NewEventService (ingestProgram [sampleEvent]) =
        applyOp NewEventService (Op.ingest [sampleEvent]) ∧
    (ingestProgram [sampleEvent]).take 1 = [AtomicStep.storeBatch [sampleEvent]] ∧
    handleStats (runActions NewEventService [AtomicStep.storeBatch [sampleEvent]]) ≠
        handleStats NewEventService ∧
    handleStats (runActions NewEventService [AtomicStep.storeBatch [sampleEvent]]) ≠
        handleStats (applyOp NewEventService (Op.ingest [sampleEvent])) := by
  decide

/-- C4 as amended: the window itself is never torn.  The locked store
append/trim and the locked clear truncation are the only atomic steps that
touch the window, so after any prefix of any interleaving of ingest, clear
and reader steps, the window a reader observes is exactly the
capacity-trimmed concatenation of the batches completely stored since the
most recent clear (all batches when no clear has run), in execution order
— never a partial batch, never reordered survivors.  The counters, updated
outside the lock, are not part of this guarantee. -/
theorem window_never_torn (tr : List AtomicStep) :
    (runActions NewEventService tr).events =
      (batchesSinceClear tr).flatten.drop
        ((batchesSinceClear tr).flatten.length - maxStoredEvents) :=
  runActions_events_since_clear tr NewEventService [] rfl

example : batchesSinceClear tornTrace = [[sampleDeniedEvent]] := by decide

example : (runActions NewEventService tornTrace).events = [sampleDeniedEvent] := by
  decide

/-- C5: ingest contract.  A successfully decoded batch is accepted in
full (the response is its exact length with HTTP 200), the window becomes
the append of the batch trimmed from the front to capacity, and the three
counters advance by the batch length and its per-record classification
counts, independently of how many records the trim evicted.  The empty
batch is the batch.length = 0 instance. -/
theorem ingest_contract (s : EventServiceState) (batch : List UsageEvent) :
    (handlePublishEvents s (.ok (some batch))).2 = .accepted batch.length ∧
    ((handlePublishEvents s (.ok (some batch))).2).status = 200 ∧
    (handlePublishEvents s (.ok (some batch))).1.events =
      (s.events ++ batch).drop ((s.events ++ batch).length - maxStoredEvents) ∧
    (handlePublishEvents s (.ok (some batch))).1.totalReceived =
      s.totalReceived + batch.length ∧
    (handlePublishEvents s (.ok (some batch))).1.totalAllowed =
      s.totalAllowed + allowedCount batch ∧
    (handlePublishEvents s (.ok (some batch))).1.totalDenied =
      s.totalDenied + deniedCount batch := by
  refine ⟨rfl, rfl, ?_, ?_, ?_, ?_⟩
  · exact store_events_eq s batch
  · exact applyOp_ingest_totalReceived s batch
  · exact applyOp_ingest_totalAllowed s batch
  · exact applyOp_ingest_totalDenied s batch

/-- C6: list ordering, cap and tenant filter.  For any state and positive
limit k, the selection equals the newest-first filtered window truncated to
k records; its length is min(k, matching count); and with a non-empty
filter every returned record carries exactly the filtered tenant key. -/
theorem list_contract (s : EventServiceState) (f : String) (k : Nat)
    (_hk : 0 < k) :
    listEvents s f k = ((s.events.reverse).filter (matchesFilter f)).take k ∧
    (listEvents s f k).length = min k ((s.events.filter (matchesFilter f)).length) ∧
    (f ≠ "" → ∀ ev ∈ listEvents s f k, ev.tenantKey = f) := by
  have he : listEvents s f k = ((s.events.reverse).filter (matchesFilter f)).take k :=
    selectEvents_eq_filter_take f s.events.reverse k
  refine ⟨he, ?_, ?_⟩
  · rw [he, List.length_take, List.filter_reverse, List.length_reverse]
  · intro hf ev hev
    rw [he] at hev
    have hmem := List.mem_of_mem_take hev
    rw [List.mem_filter] at hmem
    have hm := hmem.2
    simp only [matchesFilter, Bool.or_eq_true, beq_iff_eq] at hm
    rcases hm with h1 | h2
    · exact absurd h1 hf
    · exact h2

/-- Witness for C6 at a concrete two-event state with filter tenant-1 and
limit 1. -/
theorem list_contract_witness :
    0 < 1 ∧
    (listEvents sampleState "tenant-1" 1 =
        ((sampleState.events.reverse).filter (matchesFilter "tenant-1")).take 1 ∧
      (listEvents sampleState "tenant-1" 1).length =
        min 1 ((sampleState.events.filter (matchesFilter "tenant-1")).length) ∧
      ("tenant-1" ≠ "" →
        ∀ ev ∈ listEvents sampleState "tenant-1" 1, ev.tenantKey = "tenant-1")) :=
  ⟨by decide, list_contract sampleState "tenant-1" 1 (by decide)⟩

theorem iterate_clear_new (m : Nat) :
    handleClearEvents^[m] NewEventService = NewEventService := by
  induction m with
  | zero => rfl
  | succ m ih =>
    rw [Function.iterate_succ_apply,
      show handleClearEvents NewEventService = NewEventService from rfl]
    exact ih

/-- C7: clear reset and idempotence.  Any positive number of consecutive
clears yields the freshly created service state, so stats reads all zeros,
every list call returns the empty sequence, and any further operation
sequence behaves exactly as on a fresh store. -/
theorem clear_idempotent (s : EventServiceState) (n : Nat) (hn : 0 < n) :
    handleClearEvents^[n] s = NewEventService ∧
    handleStats (handleClearEvents^[n] s) = ⟨0, 0, 0, 0⟩ ∧
    (∀ f limitStr, handleListEvents (handleClearEvents^[n] s) f limitStr = []) ∧
    (∀ ops : List Op, ops.foldl applyOp (handleClearEvents^[n] s) = runOps ops) := by
  have hiter : handleClearEvents^[n] s = NewEventService := by
    obtain ⟨m, rfl⟩ : ∃ m, n = m + 1 := ⟨n - 1, by omega⟩
    rw [Function.iterate_succ_apply,
      show handleClearEvents s = NewEventService from rfl]
    exact iterate_clear_new m
  refine ⟨hiter, by rw [hiter]; rfl, ?_, ?_⟩
  · intro f limitStr
    rw [hiter]
    exact selectEvents_nil f (normalizeLimit limitStr).toNat
  · intro ops
    rw [hiter]
    rfl

/-- Witness for C7 at two consecutive clears of a concrete state. -/
theorem clear_idempotent_witness :
    0 < 2 ∧
    (handleClearEvents^[2] sampleState = NewEventService ∧
      handleStats (handleClearEvents^[2] sampleState) = ⟨0, 0, 0, 0⟩ ∧
      (∀ f limitStr,
        handleListEvents (handleClearEvents^[2] sampleState) f limitStr = []) ∧
      (∀ ops : List Op,
        ops.foldl applyOp (handleClearEvents^[2] sampleState) = runOps ops)) :=
  ⟨by decide, clear_idempotent sampleState 2 (by decide)⟩

/-- C8: limit normalisation.  A limit parameter that fails to parse or
parses non-positive makes the handler use the default 100; and no upper
bound is enforced: a parsed limit above maxStoredEvents makes a list call
return every retained matching record. -/
theorem limit_normalization (s : EventServiceState) (f limitStr : String)
    (n : Int) :
    ((goAtoi limitStr = none ∨ ∃ m : Int, goAtoi limitStr = some m ∧ m ≤ 0) →
      handleListEvents s f limitStr = listEvents s f 100) ∧
    (goAtoi limitStr = some n → (maxStoredEvents : Int) < n →
      s.events.length ≤ maxStoredEvents →
      handleListEvents s f limitStr = (s.events.reverse).filter (matchesFilter f)) := by
  constructor
  · intro h
    have hnorm : normalizeLimit limitStr = 100 := by
      unfold normalizeLimit
      by_cases he : limitStr = ""
      · rw [if_pos he]
      · rw [if_neg he]
        rcases h with h | ⟨m, hm, hm2⟩
        · rw [h]
        · rw [hm]
          simp only
          rw [if_neg (by omega)]
    rw [show handleListEvents s f limitStr =
        listEvents s f (normalizeLimit limitStr).toNat from rfl, hnorm]
    rfl
  · intro hn hgt hlen
    have he : limitStr ≠ "" := by
      intro h0
      rw [h0, show goAtoi "" = none from rfl] at hn
      exact Option.noConfusion hn
    have hnorm : normalizeLimit limitStr = n := by
      unfold normalizeLimit
      rw [if_neg he, hn]
      simp only
      rw [if_pos (by have : (maxStoredEvents : Int) = 10000 := rfl; omega)]
    rw [show handleListEvents s f limitStr =
        listEvents s f (normalizeLimit limitStr).toNat from rfl, hnorm]
    rw [show listEvents s f n.toNat =
        selectEvents f n.toNat s.events.reverse from rfl,
      selectEvents_eq_filter_take]
    apply List.take_of_length_le
    have hle : ((s.events.reverse).filter (matchesFilter f)).length ≤
        s.events.length := by
      calc ((s.events.reverse).filter (matchesFilter f)).length
          ≤ s.events.reverse.length := List.length_filter_le _ _
        _ = s.events.length := List.length_reverse _
    have hmax : (maxStoredEvents : Int) = 10000 := rfl
    omega

/-- Witness for C8: an unparsable limit falls back to 100, and a parsed
limit of 10001 on a small state returns all matching records. -/
theorem limit_normalization_witness :
    handleListEvents sampleState "" "abc" = listEvents sampleState "" 100 ∧
    handleListEvents sampleState "" "10001" =
      (sampleState.events.reverse).filter (matchesFilter "") := by
  refine ⟨(limit_normalization sampleState "" "abc" 0).1 (Or.inl (by decide)), ?_⟩
  exact (limit_normalization sampleState "" "10001" 10001).2
    (by decide) (by decide) (by decide)

/-- C9: malformed publish body.  When the JSON decode fails, the handler
answers HTTP 400 and returns before the store call: the state — window and
all three counters — is exactly the one before the request. -/
theorem malformed_body_rejected (s : EventServiceState) :
    handlePublishEvents s .err = (s, .invalidBody) ∧
    (PublishResponse.invalidBody).status = 400 :=
  ⟨rfl, rfl⟩

/-- C10: absent or null events field.  A body that decodes with no events
array is the empty batch: the handler answers HTTP 200 with accepted = 0
and the state is unchanged (for any reachable state, whose window respects
the capacity bound). -/
theorem absent_events_empty_batch (s : EventServiceState)
    (h : s.events.length ≤ maxStoredEvents) :
    handlePublishEvents s (.ok none) = (s, .accepted 0) ∧
    (PublishResponse.accepted 0).status = 200 := by
  refine ⟨?_, rfl⟩
  have hst : s.store [] = s := by
    have h2 : ¬ maxStoredEvents < s.events.length := by omega
    simp [EventServiceState.store, h2]
  simp [handlePublishEvents, hst, classifyCounts]

/-- Witness for C10 at a concrete two-event state. -/
theorem absent_events_empty_batch_witness :
    sampleState.events.length ≤ maxStoredEvents ∧
    (handlePublishEvents sampleState (.ok none) = (sampleState, .accepted 0) ∧
      (PublishResponse.accepted 0).status = 200) :=
  ⟨by decide, absent_events_empty_batch sampleState (by decide)⟩
